import Mathlib

set_option linter.unusedVariables false

/-! Verification of the terminal completion service
(terminalCompletionService.ts): provider registry, trigger selection,
aggregation engine and path completion resolver. JavaScript strings are
modelled through their character lists; the inputs considered stay in the
basic multilingual plane, where UTF-16 indexing agrees with code points.
Promises are modelled by Except (a rejection or thrown exception is the
error case); the advisory cancellation token is not modelled, as no claim
depends on it. -/

/-- Model of the JavaScript expression s.substring(0, n). -/
def jsSubstringTo (s : String) (n : Nat) : String :=
  String.mk (s.data.take n)

/-- Model of the JavaScript expression s.endsWith(t). -/
def jsEndsWith (s t : String) : Bool :=
  t.data.isSuffixOf s.data

/-- Occurrence test on character lists, used to model String.prototype.includes. -/
def containsSub (needle : List Char) : List Char → Bool
  | [] => needle.isEmpty
  | c :: rest => needle.isPrefixOf (c :: rest) || containsSub needle rest

/-- Model of the JavaScript expression s.includes(t). -/
def jsIncludes (s t : String) : Bool :=
  containsSub t.data s.data

/-- Model of String.prototype.replace with a plain string pattern: only the
first occurrence of the pattern is replaced. -/
def replaceFirstList (search repl : List Char) : List Char → List Char
  | [] => if search.isPrefixOf ([] : List Char) then repl else []
  | c :: rest =>
    if search.isPrefixOf (c :: rest) then repl ++ (c :: rest).drop search.length
    else c :: replaceFirstList search repl rest

/-- Model of the JavaScript expression s.replace(search, repl). -/
def jsReplaceFirst (s search repl : String) : String :=
  String.mk (replaceFirstList search.data repl.data s.data)

/-- Splitting of a character list on a non-empty separator, accumulating the
current segment in reverse. The first argument is recursion fuel, always
passed as the length of the remaining input, which strictly decreases at
every step since the separator is non-empty; the fuel keeps the recursion
structural so that concrete calls reduce by rfl. -/
def splitSegs (sep : List Char) : Nat → List Char → List Char → List (List Char)
  | _, [], cur => [cur.reverse]
  | 0, c :: rest, cur => [cur.reverse ++ (c :: rest)]
  | fuel + 1, c :: rest, cur =>
    if sep ≠ [] ∧ sep.isPrefixOf (c :: rest) = true then
      cur.reverse :: splitSegs sep fuel ((c :: rest).drop sep.length) []
    else
      splitSegs sep fuel rest (c :: cur)

/-- Model of String.prototype.split with a string separator; an empty
separator splits into single characters, as in JavaScript. -/
def jsSplit (s sep : String) : List String :=
  if sep.data = [] then s.data.map (fun c => String.mk [c])
  else (splitSegs sep.data s.data.length s.data []).map String.mk

/-- Model of Array.prototype.join. -/
def jsJoin (parts : List String) (sep : String) : String :=
  String.mk ((parts.map String.data).intersperse sep.data).flatten

/-- Lookup in a JavaScript Map with value-compared keys (strings): the map is
an insertion-ordered association list. -/
def jsMapGet {K V : Type} [DecidableEq K] (m : List (K × V)) (k : K) : Option V :=
  (m.find? (fun p => decide (p.1 = k))).map (fun p => p.2)

/-- Map.prototype.set: replaces the entry in place when the key is present,
otherwise appends a new entry. -/
def jsMapSet {K V : Type} [DecidableEq K] (m : List (K × V)) (k : K) (v : V) :
    List (K × V) :=
  if m.any (fun p => decide (p.1 = k)) then
    m.map (fun p => if p.1 = k then (k, v) else p)
  else m ++ [(k, v)]

/-- Map.prototype.delete. -/
def jsMapDelete {K V : Type} [DecidableEq K] (m : List (K × V)) (k : K) :
    List (K × V) :=
  m.filter (fun p => !(decide (p.1 = k)))

/-- Model of the URI class, restricted to the components the service reads.
The service reads fsPath only on URIs without authority or drive letter,
where fsPath coincides with path. -/
structure URI where
  scheme : String
  path : String
deriving DecidableEq

def URI.fsPath (u : URI) : String := u.path

inductive TerminalCompletionItemKind where
  | File
  | Folder
  | Flag
  | Method
  | Argument
deriving DecidableEq

structure ITerminalCompletion where
  label : String
  detail : Option String := none
  kind : Option TerminalCompletionItemKind := none
  isDirectory : Option Bool := none
  isFile : Option Bool := none
  replacementIndex : Nat := 0
  replacementLength : Nat := 0
deriving DecidableEq

structure TerminalResourceRequestConfig where
  filesRequested : Option Bool := none
  foldersRequested : Option Bool := none
  cwd : Option URI := none
  pathSeparator : String
deriving DecidableEq

structure TerminalCompletionList where
  resourceRequestConfig : Option TerminalResourceRequestConfig := none
  items : Option (List ITerminalCompletion) := none
deriving DecidableEq

/-- Return shape of a provider invocation that settled with a value:
a bare array of items or a structured completion list. -/
inductive ProviderReturn where
  | arr (items : List ITerminalCompletion)
  | list (l : TerminalCompletionList)
deriving DecidableEq

/-- Provider record. The invocation function maps the prompt value and cursor
position to its settled outcome; Except.error is a thrown exception or a
rejected promise. -/
structure ITerminalCompletionProvider where
  id : String
  shellTypes : Option (List String) := none
  triggerCharacters : Option (List String) := none
  isBuiltin : Option Bool := none
  provideCompletions : String → Nat → Except Unit (Option ProviderReturn)

structure FileStatChild where
  resource : URI
  isDirectory : Bool
  isFile : Bool
deriving DecidableEq

structure FileStat where
  children : Option (List FileStatChild) := none
deriving DecidableEq

/-- External collaborators: the two configuration values the service reads
and the file service, whose resolution failure is the none result. -/
structure Env where
  enableExtensionCompletions : Bool
  devMode : Bool
  fileService : URI → Option FileStat

/-- State of the private field _providers: a Map from extension identifier to
a Map from provider id to provider, both insertion ordered. -/
abbrev Registry := List (String × List (String × ITerminalCompletionProvider))

/-- Model of the providers generator: all providers across namespaces in
iteration order. -/
def enumerateProviders (r : Registry) : List ITerminalCompletionProvider :=
  (r.map (fun e => e.2.map (fun q => q.2))).flatten

/-- Registration stamps the trigger characters and the id onto the provider
before storing it. -/
def stampProvider (provider : ITerminalCompletionProvider) (id : String)
    (triggerCharacters : List String) : ITerminalCompletionProvider :=
  { provider with triggerCharacters := some triggerCharacters, id := id }

/-- Model of registerTerminalCompletionProvider: ensures the namespace map
exists, stamps the provider and stores it under the composite key. -/
def registerTerminalCompletionProvider (r : Registry) (extensionIdentifier id : String)
    (provider : ITerminalCompletionProvider) (triggerCharacters : List String) : Registry :=
  jsMapSet r extensionIdentifier
    (jsMapSet ((jsMapGet r extensionIdentifier).getD []) id
      (stampProvider provider id triggerCharacters))

/-- Model of the disposal closure returned by registerTerminalCompletionProvider:
it captures only the two key strings, never the provider instance; deleting
the last provider of a namespace deletes the namespace entry. -/
def disposeProvider (r : Registry) (extensionIdentifier id : String) : Registry :=
  match jsMapGet r extensionIdentifier with
  | none => r
  | some extMap =>
    if (jsMapDelete extMap id).length = 0 then jsMapDelete r extensionIdentifier
    else jsMapSet r extensionIdentifier (jsMapDelete extMap id)

/-- Trigger test of one provider: some trigger character is a suffix of the
prompt up to the cursor. -/
def triggerMatches (promptValue : String) (cursorPosition : Nat)
    (p : ITerminalCompletionProvider) : Bool :=
  match p.triggerCharacters with
  | none => false
  | some tcs => tcs.any (fun c => jsEndsWith (jsSubstringTo promptValue cursorPosition) c)

/-- Trigger branch of provideCompletions. The source loops over the registry
generator and pushes each provider on its first matching trigger character,
breaking out of the inner loop; this equals an order-preserving filter. -/
def selectTriggerProviders (providers : List ITerminalCompletionProvider)
    (promptValue : String) (cursorPosition : Nat) : List ITerminalCompletionProvider :=
  providers.filter (triggerMatches promptValue cursorPosition)

/-- Optional chaining in the source: completion.detail?.includes(id) is
undefined, hence falsy, when detail is undefined. -/
def detailIncludes (detail : Option String) (t : String) : Bool :=
  match detail with
  | some d => jsIncludes d t
  | none => false

/-- Dev mode annotation step applied in place to each completion item. -/
def annotateCompletion (devModeEnabled : Bool) (providerId : String)
    (completion : ITerminalCompletion) : ITerminalCompletion :=
  if devModeEnabled && !(detailIncludes completion.detail providerId) then
    { completion with detail := some ("(" ++ providerId ++ ") " ++ completion.detail.getD "") }
  else completion

/-- Parent directory path: split on the configured separator, drop the last
segment, join back. -/
def parentDirPath (cwd : URI) (sep : String) : String :=
  jsJoin ((jsSplit cwd.fsPath sep).dropLast) sep

/-- The parent URI built by the source with URI.from, keeping the scheme. -/
def parentCwdOf (cfg : TerminalResourceRequestConfig) (cwd : URI) : URI :=
  { scheme := cwd.scheme, path := parentDirPath cwd cfg.pathSeparator }

/-- Last whitespace-delimited token of the prompt up to the cursor. -/
def lastWordOf (promptValue : String) (cursorPosition : Nat) : String :=
  (jsSplit (jsSubstringTo promptValue cursorPosition) " ").getLastD ""

/-- Kind classification of one child entry: the folder branch first, then the
file branch may overwrite it. -/
def statKind (filesRequested foldersRequested : Bool) (stat : FileStatChild) :
    Option TerminalCompletionItemKind :=
  let kind := if foldersRequested && stat.isDirectory then
      some TerminalCompletionItemKind.Folder
    else none
  if filesRequested && !stat.isDirectory && (stat.isFile || stat.resource.scheme == "file") then
    some TerminalCompletionItemKind.File
  else kind

/-- Completion item synthesized for one child entry of a listed directory. -/
def childItem (cwd : URI) (lastWordLength cursorPosition : Nat) (pfx : String)
    (stat : FileStatChild) (kind : TerminalCompletionItemKind) : ITerminalCompletion :=
  let label := pfx ++ jsReplaceFirst stat.resource.fsPath cwd.fsPath ""
  { label := label
    detail := none
    kind := some kind
    isDirectory := some (decide (kind = TerminalCompletionItemKind.Folder))
    isFile := some (decide (kind = TerminalCompletionItemKind.File))
    replacementIndex := cursorPosition - lastWordLength
    replacementLength := label.length }

/-- Items contributed by the children of one directory. -/
def dirItems (filesRequested foldersRequested : Bool) (cwd : URI)
    (lastWordLength cursorPosition : Nat) (pfx : String)
    (children : List FileStatChild) : List ITerminalCompletion :=
  children.filterMap (fun stat =>
    (statKind filesRequested foldersRequested stat).map
      (childItem cwd lastWordLength cursorPosition pfx stat))

/-- One directory listing: none when the file service yields no stat or a
stat without children. -/
def listDirItems (env : Env) (filesRequested foldersRequested : Bool) (cwd : URI)
    (lastWordLength cursorPosition : Nat) (dir : URI) (pfx : String) :
    Option (List ITerminalCompletion) :=
  match env.fileService dir with
  | none => none
  | some fileStat =>
    match fileStat.children with
    | none => none
    | some children =>
      some (dirItems filesRequested foldersRequested cwd lastWordLength cursorPosition pfx children)

/-- Body of the for loop of _resolveResources, with the early return that
aborts the whole resolution on any listing failure. -/
def resolveLoop (env : Env) (filesRequested foldersRequested : Bool) (cwd : URI)
    (lastWordLength cursorPosition : Nat) :
    List (URI × String) → List ITerminalCompletion → Option (List ITerminalCompletion)
  | [], acc => some acc
  | (dir, pfx) :: rest, acc =>
    match listDirItems env filesRequested foldersRequested cwd lastWordLength cursorPosition dir pfx with
    | none => none
    | some items =>
      resolveLoop env filesRequested foldersRequested cwd lastWordLength cursorPosition rest (acc ++ items)

/-- Model of the private method _resolveResources. The directory map of the
source is a JavaScript Map keyed by URI objects; cwd and parentCwd are
distinct heap objects even when structurally equal, because URI.from always
constructs a fresh object, so the map always holds exactly these two entries
in insertion order. -/
def resolveResources (env : Env) (cfg : TerminalResourceRequestConfig)
    (promptValue : String) (cursorPosition : Nat) : Option (List ITerminalCompletion) :=
  match cfg.cwd with
  | none => none
  | some cwd =>
    if !(cfg.foldersRequested.getD false) && !(cfg.filesRequested.getD false) then none
    else
      match resolveLoop env (cfg.filesRequested.getD false) (cfg.foldersRequested.getD false)
          cwd (lastWordOf promptValue cursorPosition).length cursorPosition
          [(cwd, "."), (parentCwdOf cfg cwd, "..")] [] with
      | none => none
      | some resourceCompletions =>
        if resourceCompletions.length = 0 then none else some resourceCompletions

/-- Per-provider step of _collectCompletions: shell type gate, invocation,
normalization, annotation, optional resource resolution. -/
def collectOne (env : Env) (shellType promptValue : String) (cursorPosition : Nat)
    (provider : ITerminalCompletionProvider) : Except Unit (Option (List ITerminalCompletion)) :=
  if (match provider.shellTypes with
      | some ts => !(ts.contains shellType)
      | none => false) then Except.ok none
  else
    match provider.provideCompletions promptValue cursorPosition with
    | Except.error e => Except.error e
    | Except.ok none => Except.ok none
    | Except.ok (some completions) =>
      match completions with
      | ProviderReturn.arr items =>
        Except.ok (some (items.map (annotateCompletion env.devMode provider.id)))
      | ProviderReturn.list l =>
        match l.resourceRequestConfig with
        | some cfg =>
          Except.ok (some ((l.items.getD []).map (annotateCompletion env.devMode provider.id)
            ++ (resolveResources env cfg promptValue cursorPosition).getD []))
        | none => Except.ok none

/-- Join of the provider promises: Promise.all settles with the array of
results in positional order, and rejects when any member rejects. -/
def collectResults (env : Env) (shellType promptValue : String) (cursorPosition : Nat) :
    List ITerminalCompletionProvider → Except Unit (List (Option (List ITerminalCompletion)))
  | [] => Except.ok []
  | p :: ps =>
    match collectOne env shellType promptValue cursorPosition p with
    | Except.error e => Except.error e
    | Except.ok r =>
      match collectResults env shellType promptValue cursorPosition ps with
      | Except.error e => Except.error e
      | Except.ok rs => Except.ok (r :: rs)

/-- Model of the private method _collectCompletions: join all provider
promises, drop undefined contributions, flatten. -/
def collectCompletions (env : Env) (providers : List ITerminalCompletionProvider)
    (shellType promptValue : String) (cursorPosition : Nat) :
    Except Unit (List ITerminalCompletion) :=
  match collectResults env shellType promptValue cursorPosition providers with
  | Except.error e => Except.error e
  | Except.ok results => Except.ok ((results.filterMap id).flatten)

/-- Candidate provider computation of provideCompletions: trigger selection
or full enumeration, then the extension completions policy filter. -/
def candidateProviders (env : Env) (r : Registry) (promptValue : String)
    (cursorPosition : Nat) (triggerCharacter : Bool) : List ITerminalCompletionProvider :=
  let providers :=
    if triggerCharacter then
      selectTriggerProviders (enumerateProviders r) promptValue cursorPosition
    else enumerateProviders r
  if env.enableExtensionCompletions then providers
  else providers.filter (fun p => p.isBuiltin.getD false)

/-- Model of provideCompletions. The initial guard on this._providers is dead
code, since the field is always a constructed Map, and is omitted. -/
def provideCompletions (env : Env) (r : Registry) (promptValue : String)
    (cursorPosition : Nat) (shellType : String) (triggerCharacter : Bool) :
    Except Unit (List ITerminalCompletion) :=
  collectCompletions env (candidateProviders env r promptValue cursorPosition triggerCharacter)
    shellType promptValue cursorPosition

/-- Modelled from the spec, ordering contract: the merged output is the
positional concatenation of per-provider contributions in provider order,
skipped providers contributing nothing. -/
def positionalMerge (outcomes : List (Option (List ITerminalCompletion))) :
    List ITerminalCompletion :=
  (outcomes.filterMap id).flatten

/-- Settled value of a per-provider outcome: none for a rejection. -/
def exceptValue (e : Except Unit (Option (List ITerminalCompletion))) :
    Option (List ITerminalCompletion) :=
  match e with
  | Except.error _ => none
  | Except.ok v => v

def mapKeys {K V : Type} (m : List (K × V)) : List K := m.map (fun p => p.1)

/-- Well-formedness every JavaScript Map enjoys by construction: keys are
unique at both levels. -/
def RegistryWF (r : Registry) : Prop :=
  (mapKeys r).Nodup ∧ ∀ e ∈ r, (mapKeys e.2).Nodup

def countProviders (r : Registry) : Nat := (enumerateProviders r).length

/-- Composite keys of all registered providers in iteration order. -/
def enumeratePairs (r : Registry) : List (String × String) :=
  (r.map (fun e => e.2.map (fun q => (e.1, q.1)))).flatten

/-- Lookup of a provider under its composite key. -/
def jsMapGet2 (r : Registry) (ns id : String) : Option ITerminalCompletionProvider :=
  jsMapGet ((jsMapGet r ns).getD []) id

/-- Listing failure of one directory: the file service resolves to nothing,
or to a stat without children. -/
def listingFails (env : Env) (dir : URI) : Prop :=
  env.fileService dir = none ∨ ∃ st, env.fileService dir = some st ∧ st.children = none

/-- Sample items used by concrete instances. -/
def itemA : ITerminalCompletion := { label := "a" }

def itemB : ITerminalCompletion := { label := "b" }

def itemX : ITerminalCompletion := { label := "x" }

/-- Environment with extension completions enabled, dev mode off, and a file
service that resolves nothing. -/
def envPlain : Env :=
  { enableExtensionCompletions := true, devMode := false, fileService := fun _ => none }

/-- Provider resolving a bare array holding itemA. -/
def pArrA : ITerminalCompletionProvider :=
  { id := "", provideCompletions := fun _ _ => Except.ok (some (ProviderReturn.arr [itemA])) }

/-- Provider whose invocation rejects. -/
def pThrow : ITerminalCompletionProvider :=
  { id := "", provideCompletions := fun _ _ => Except.error () }

/-- Provider resolving a bare array holding itemB. -/
def pArrB : ITerminalCompletionProvider :=
  { id := "", provideCompletions := fun _ _ => Except.ok (some (ProviderReturn.arr [itemB])) }

/-- Registry holding pArrA, pThrow, pArrB in one namespace, in that order. -/
def regThree : Registry :=
  registerTerminalCompletionProvider
    (registerTerminalCompletionProvider
      (registerTerminalCompletionProvider [] "ext" "p1" pArrA [])
      "ext" "p2" pThrow [])
    "ext" "p3" pArrB []

/-- Provider resolving a structured list with one item and no resource
request. -/
def pListNoResource : ITerminalCompletionProvider :=
  { id := "c2", provideCompletions := fun _ _ =>
      Except.ok (some (ProviderReturn.list { resourceRequestConfig := none, items := some [itemX] })) }

/-- Working directory whose computed parent path equals its own path:
splitting the empty path on the separator and dropping the last segment
yields the empty path again. -/
def cwdRoot : URI := { scheme := "test", path := "" }

def cfgRoot : TerminalResourceRequestConfig :=
  { filesRequested := none, foldersRequested := some true, cwd := some cwdRoot,
    pathSeparator := "/" }

/-- File service resolving cwdRoot to a single child folder named sub. -/
def envRoot : Env :=
  { enableExtensionCompletions := true, devMode := false,
    fileService := fun u =>
      if u = cwdRoot then
        some { children := some [{ resource := { scheme := "test", path := "sub" },
                                   isDirectory := true, isFile := false }] }
      else none }

/-- Registry holding a provider registered with trigger characters - and /
and one registered with no trigger characters. -/
def regTrig : Registry :=
  registerTerminalCompletionProvider
    (registerTerminalCompletionProvider [] "ext" "dash" pArrA ["-", "/"])
    "ext" "plain" pArrB []

/-- Registry holding the two succeeding array providers. -/
def regTwo : Registry :=
  registerTerminalCompletionProvider
    (registerTerminalCompletionProvider [] "ext" "p1" pArrA [])
    "ext" "p2" pArrB []

/-- Resource request for a two-segment working directory, folders only. -/
def cfgDir : TerminalResourceRequestConfig :=
  { filesRequested := none, foldersRequested := some true,
    cwd := some { scheme := "test", path := "a/b" }, pathSeparator := "/" }

/-- Provider resolving a structured list carrying one item and the cfgDir
resource request. -/
def pWithResource : ITerminalCompletionProvider :=
  { id := "res", provideCompletions := fun _ _ =>
      Except.ok (some (ProviderReturn.list
        { resourceRequestConfig := some cfgDir, items := some [itemX] })) }

/-- Item with an empty (but present) detail text. -/
def itemEmptyDetail : ITerminalCompletion := { label := "e", detail := some "" }

/-- Single child folder of the root-case directory. -/
def childSub : FileStatChild :=
  { resource := { scheme := "test", path := "sub" }, isDirectory := true, isFile := false }

theorem jsMapGet_eq_some_mem {K V : Type} [DecidableEq K] {m : List (K × V)} {k : K} {v : V}
    (h : jsMapGet m k = some v) : (k, v) ∈ m := by
  unfold jsMapGet at h
  cases hf : m.find? (fun p => decide (p.1 = k)) with
  | none => rw [hf] at h; simp at h
  | some p =>
    rw [hf] at h
    simp at h
    have hmem := List.mem_of_find?_eq_some hf
    have hkey := List.find?_some hf
    simp at hkey
    cases p with
    | mk a b =>
      simp at hkey h
      rw [hkey, h] at hmem
      exact hmem

theorem jsMapGet_eq_none_iff {K V : Type} [DecidableEq K] {m : List (K × V)} {k : K} :
    jsMapGet m k = none ↔ ∀ p ∈ m, p.1 ≠ k := by
  unfold jsMapGet
  simp [List.find?_eq_none]

theorem jsMapAny_eq_false {K V : Type} [DecidableEq K] {m : List (K × V)} {k : K}
    (h : ∀ p ∈ m, p.1 ≠ k) : (m.any (fun p => decide (p.1 = k))) = false := by
  simp only [List.any_eq_false, decide_eq_true_eq]
  exact h

theorem jsMapSet_of_fresh {K V : Type} [DecidableEq K] {m : List (K × V)} {k : K} {v : V}
    (h : ∀ p ∈ m, p.1 ≠ k) : jsMapSet m k v = m ++ [(k, v)] := by
  unfold jsMapSet
  rw [jsMapAny_eq_false h]
  simp

theorem jsMapGet_append_single {K V : Type} [DecidableEq K] {m : List (K × V)} {k : K} {v : V}
    (h : ∀ p ∈ m, p.1 ≠ k) : jsMapGet (m ++ [(k, v)]) k = some v := by
  unfold jsMapGet
  rw [List.find?_append]
  have hnone : m.find? (fun p => decide (p.1 = k)) = none := by
    simp only [List.find?_eq_none, decide_eq_true_eq]
    exact h
  rw [hnone]
  simp

theorem jsMapGet_map_replace {K V : Type} [DecidableEq K] (m : List (K × V)) (k : K) (v : V)
    (h : (m.any (fun p => decide (p.1 = k))) = true) :
    jsMapGet (m.map (fun p => if p.1 = k then (k, v) else p)) k = some v := by
  induction m with
  | nil => simp at h
  | cons p t ih =>
    by_cases hp : p.1 = k
    · unfold jsMapGet
      simp [List.find?_cons, hp]
    · have ht : t.any (fun q => decide (q.1 = k)) = true := by
        rw [List.any_cons] at h
        simpa [hp] using h
      have hrec := ih ht
      unfold jsMapGet at hrec ⊢
      simpa [List.find?_cons, hp] using hrec

theorem jsMapGet_set_self {K V : Type} [DecidableEq K] (m : List (K × V)) (k : K) (v : V) :
    jsMapGet (jsMapSet m k v) k = some v := by
  unfold jsMapSet
  by_cases h : (m.any (fun p => decide (p.1 = k))) = true
  · rw [if_pos h]
    exact jsMapGet_map_replace m k v h
  · rw [if_neg h]
    have hf : ∀ p ∈ m, p.1 ≠ k := by
      have : (m.any (fun p => decide (p.1 = k))) = false := by
        cases hb : m.any (fun p => decide (p.1 = k))
        · rfl
        · exact absurd hb h
      simpa [List.any_eq_false] using this
    exact jsMapGet_append_single hf

theorem find?_map_replace_ne {K V : Type} [DecidableEq K] (m : List (K × V)) (k k2 : K) (v : V)
    (hne : k2 ≠ k) :
    (m.map (fun p => if p.1 = k then (k, v) else p)).find? (fun p => decide (p.1 = k2)) =
      m.find? (fun p => decide (p.1 = k2)) := by
  induction m with
  | nil => simp
  | cons p t ih =>
    by_cases hp : p.1 = k
    · have h1 : ¬(k = k2) := fun hh => hne hh.symm
      have h2 : ¬(p.1 = k2) := by rw [hp]; exact h1
      simp [List.find?_cons, hp, h1, h2, ih]
    · by_cases hq : p.1 = k2
      · simp [List.find?_cons, hp, hq, hne]
      · simp [List.find?_cons, hp, hq, ih]

theorem jsMapGet_set_ne {K V : Type} [DecidableEq K] (m : List (K × V)) (k k2 : K) (v : V)
    (hne : k2 ≠ k) : jsMapGet (jsMapSet m k v) k2 = jsMapGet m k2 := by
  unfold jsMapSet jsMapGet
  by_cases h : (m.any (fun p => decide (p.1 = k))) = true
  · rw [if_pos h, find?_map_replace_ne m k k2 v hne]
  · rw [if_neg h, List.find?_append]
    have h1 : ¬(k = k2) := fun hh => hne hh.symm
    have hsingle : ([(k, v)].find? (fun p => decide (p.1 = k2))) = none := by
      simp [List.find?_cons, h1]
    rw [hsingle]
    simp

theorem jsMapGet_delete_self {K V : Type} [DecidableEq K] (m : List (K × V)) (k : K) :
    jsMapGet (jsMapDelete m k) k = none := by
  rw [jsMapGet_eq_none_iff]
  intro p hp
  unfold jsMapDelete at hp
  have := List.of_mem_filter hp
  simpa using this

theorem jsMapDelete_of_fresh {K V : Type} [DecidableEq K] {m : List (K × V)} {k : K}
    (h : ∀ p ∈ m, p.1 ≠ k) : jsMapDelete m k = m := by
  unfold jsMapDelete
  rw [List.filter_eq_self]
  intro p hp
  simpa using h p hp

theorem jsMapSet_mem_cases {K V : Type} [DecidableEq K] {m : List (K × V)} {k : K} {v : V}
    {e : K × V} (h : e ∈ jsMapSet m k v) : e = (k, v) ∨ e ∈ m := by
  unfold jsMapSet at h
  by_cases hany : (m.any (fun p => decide (p.1 = k))) = true
  · rw [if_pos hany] at h
    obtain ⟨p, hp, hpe⟩ := List.mem_map.mp h
    by_cases hk : p.1 = k
    · left; rw [← hpe]; simp [hk]
    · right; rw [← hpe]; simpa [hk] using hp
  · rw [if_neg hany] at h
    rcases List.mem_append.mp h with h1 | h1
    · right; exact h1
    · left; simpa using h1

theorem mapKeys_set {K V : Type} [DecidableEq K] (m : List (K × V)) (k : K) (v : V) :
    mapKeys (jsMapSet m k v) =
      if (m.any (fun p => decide (p.1 = k))) then mapKeys m else mapKeys m ++ [k] := by
  unfold jsMapSet mapKeys
  by_cases hany : (m.any (fun p => decide (p.1 = k))) = true
  · rw [if_pos hany, if_pos hany, List.map_map]
    apply List.map_congr_left
    intro p hp
    by_cases hk : p.1 = k
    · simp [hk]
    · simp [hk]
  · rw [if_neg hany, if_neg hany]
    simp

theorem mapKeys_nodup_set {K V : Type} [DecidableEq K] {m : List (K × V)} {k : K} {v : V}
    (h : (mapKeys m).Nodup) : (mapKeys (jsMapSet m k v)).Nodup := by
  rw [mapKeys_set]
  by_cases hany : (m.any (fun p => decide (p.1 = k))) = true
  · rw [if_pos hany]; exact h
  · rw [if_neg hany]
    rw [List.nodup_append]
    refine ⟨h, List.nodup_singleton k, ?_⟩
    intro a ha hb
    have hk : a = k := by simpa using hb
    have hfresh : ∀ p ∈ m, p.1 ≠ k := by
      have : (m.any (fun p => decide (p.1 = k))) = false := by
        cases hb2 : m.any (fun p => decide (p.1 = k))
        · rfl
        · exact absurd hb2 hany
      simpa [List.any_eq_false] using this
    obtain ⟨p, hp, hpe⟩ := List.mem_map.mp ha
    exact hfresh p hp (by rw [hpe, hk])

theorem freshOfAnyFalse {K V : Type} [DecidableEq K] {m : List (K × V)} {k : K}
    (h : ¬(m.any (fun p => decide (p.1 = k))) = true) : ∀ p ∈ m, p.1 ≠ k := by
  have hf : (m.any (fun p => decide (p.1 = k))) = false := by
    cases hb : m.any (fun p => decide (p.1 = k))
    · rfl
    · exact absurd hb h
  simpa [List.any_eq_false] using hf

theorem jsMapSet_eq_map {K V : Type} [DecidableEq K] {m : List (K × V)} {k : K} (v : V)
    (h : (m.any (fun p => decide (p.1 = k))) = true) :
    jsMapSet m k v = m.map (fun p => if p.1 = k then (k, v) else p) := by
  unfold jsMapSet
  rw [if_pos h]

theorem any_true_of_get_some {K V : Type} [DecidableEq K] {m : List (K × V)} {k : K} {v : V}
    (h : jsMapGet m k = some v) : (m.any (fun p => decide (p.1 = k))) = true := by
  have hm := jsMapGet_eq_some_mem h
  exact List.any_eq_true.mpr ⟨(k, v), hm, by simp⟩

theorem jsMapSet_set {K V : Type} [DecidableEq K] (m : List (K × V)) (k : K) (v w : V) :
    jsMapSet (jsMapSet m k v) k w = jsMapSet m k w := by
  by_cases hany : (m.any (fun p => decide (p.1 = k))) = true
  · have hany2 : ((jsMapSet m k v).any (fun p => decide (p.1 = k))) = true := by
      obtain ⟨p, hp, hpk⟩ := List.any_eq_true.mp hany
      simp only [decide_eq_true_eq] at hpk
      apply List.any_eq_true.mpr
      refine ⟨(k, v), ?_, by simp⟩
      rw [jsMapSet_eq_map v hany]
      exact List.mem_map.mpr ⟨p, hp, by simp [hpk]⟩
    rw [jsMapSet_eq_map w hany2, jsMapSet_eq_map v hany, jsMapSet_eq_map w hany,
      List.map_map]
    apply List.map_congr_left
    intro p hp
    by_cases hk : p.1 = k
    · simp [hk]
    · simp [hk]
  · have hfresh := freshOfAnyFalse hany
    have hany2 : ((m ++ [(k, v)]).any (fun p => decide (p.1 = k))) = true :=
      List.any_eq_true.mpr ⟨(k, v), by simp, by simp⟩
    rw [jsMapSet_of_fresh hfresh, jsMapSet_eq_map w hany2, jsMapSet_of_fresh hfresh,
      List.map_append]
    congr 1
    · calc m.map (fun p => if p.1 = k then (k, w) else p)
          = m.map id := List.map_congr_left (fun p hp => by simp [hfresh p hp])
        _ = m := List.map_id m
    · simp

theorem countProviders_eq_sum (r : Registry) :
    countProviders r = (r.map (fun e => e.2.length)).sum := by
  unfold countProviders enumerateProviders
  rw [List.length_flatten, List.map_map]
  congr 1
  apply List.map_congr_left
  intro e he
  simp

theorem countProviders_cons (e : String × List (String × ITerminalCompletionProvider))
    (t : Registry) : countProviders (e :: t) = e.2.length + countProviders t := by
  rw [countProviders_eq_sum, countProviders_eq_sum]
  simp

theorem countProviders_append (r : Registry) (ns : String)
    (m : List (String × ITerminalCompletionProvider)) :
    countProviders (r ++ [(ns, m)]) = countProviders r + m.length := by
  rw [countProviders_eq_sum, countProviders_eq_sum, List.map_append, List.sum_append]
  simp

theorem fresh_of_not_memKeys {K V : Type} [DecidableEq K] {t : List (K × V)} {k : K}
    (h : k ∉ mapKeys t) : ∀ p ∈ t, p.1 ≠ k := by
  intro p hp hh
  exact h (List.mem_map.mpr ⟨p, hp, hh⟩)

theorem countProviders_set_present (r : Registry) (ns : String)
    (m m2 : List (String × ITerminalCompletionProvider))
    (hnd : (mapKeys r).Nodup) (hget : jsMapGet r ns = some m) :
    countProviders (jsMapSet r ns m2) + m.length = countProviders r + m2.length := by
  induction r with
  | nil => simp [jsMapGet] at hget
  | cons e t ih =>
    have hnd2 := List.nodup_cons.mp hnd
    by_cases he : e.1 = ns
    · have hm : m = e.2 := by
        unfold jsMapGet at hget
        simp [List.find?_cons, he] at hget
        exact hget.symm
      have hfresh : ∀ p ∈ t, p.1 ≠ ns := by
        have := fresh_of_not_memKeys (k := e.1) hnd2.1
        intro p hp
        rw [← he]
        exact this p hp
      have hset : jsMapSet (e :: t) ns m2 = (ns, m2) :: t := by
        have hany : ((e :: t).any (fun p => decide (p.1 = ns))) = true :=
          List.any_eq_true.mpr ⟨e, List.mem_cons_self e t, by simp [he]⟩
        rw [jsMapSet_eq_map m2 hany, List.map_cons]
        congr 1
        · simp [he]
        · calc t.map (fun p => if p.1 = ns then (ns, m2) else p)
              = t.map id := List.map_congr_left (fun p hp => by simp [hfresh p hp])
            _ = t := List.map_id t
      rw [hset, countProviders_cons, countProviders_cons, hm]
      have hsnd : ((ns, m2) : String × List (String × ITerminalCompletionProvider)).2.length
          = m2.length := rfl
      rw [hsnd]
      omega
    · have hget2 : jsMapGet t ns = some m := by
        unfold jsMapGet at hget ⊢
        simpa [List.find?_cons, he] using hget
      have hany2 : (t.any (fun p => decide (p.1 = ns))) = true :=
        any_true_of_get_some hget2
      have hset : jsMapSet (e :: t) ns m2 = e :: jsMapSet t ns m2 := by
        have hany : ((e :: t).any (fun p => decide (p.1 = ns))) = true := by
          rw [List.any_cons]
          simp [hany2]
        rw [jsMapSet_eq_map m2 hany, jsMapSet_eq_map m2 hany2]
        simp [he]
      rw [hset, countProviders_cons, countProviders_cons]
      have := ih hnd2.2 hget2
      omega

theorem countProviders_delete_present (r : Registry) (ns : String)
    (m : List (String × ITerminalCompletionProvider))
    (hnd : (mapKeys r).Nodup) (hget : jsMapGet r ns = some m) :
    countProviders (jsMapDelete r ns) + m.length = countProviders r := by
  induction r with
  | nil => simp [jsMapGet] at hget
  | cons e t ih =>
    have hnd2 := List.nodup_cons.mp hnd
    by_cases he : e.1 = ns
    · have hm : m = e.2 := by
        unfold jsMapGet at hget
        simp [List.find?_cons, he] at hget
        exact hget.symm
      have hfresh : ∀ p ∈ t, p.1 ≠ ns := by
        have := fresh_of_not_memKeys (k := e.1) hnd2.1
        intro p hp
        rw [← he]
        exact this p hp
      have hdel : jsMapDelete (e :: t) ns = t := by
        have ht : jsMapDelete t ns = t := jsMapDelete_of_fresh hfresh
        unfold jsMapDelete at ht ⊢
        rw [List.filter_cons]
        simpa [he] using ht
      rw [hdel, countProviders_cons, hm]
      omega
    · have hget2 : jsMapGet t ns = some m := by
        unfold jsMapGet at hget ⊢
        simpa [List.find?_cons, he] using hget
      have hdel : jsMapDelete (e :: t) ns = e :: jsMapDelete t ns := by
        unfold jsMapDelete
        rw [List.filter_cons]
        simp [he]
      rw [hdel, countProviders_cons, countProviders_cons]
      have := ih hnd2.2 hget2
      omega

theorem disposeProvider_idem (r : Registry) (ns id : String) :
    disposeProvider (disposeProvider r ns id) ns id = disposeProvider r ns id := by
  cases hget : jsMapGet r ns with
  | none =>
    have h1 : disposeProvider r ns id = r := by unfold disposeProvider; rw [hget]
    rw [h1]
    exact h1
  | some m =>
    by_cases hlen : (jsMapDelete m id).length = 0
    · have h1 : disposeProvider r ns id = jsMapDelete r ns := by
        unfold disposeProvider
        rw [hget]
        simp [hlen]
      have h2 : jsMapGet (jsMapDelete r ns) ns = none := jsMapGet_delete_self r ns
      have h3 : disposeProvider (jsMapDelete r ns) ns id = jsMapDelete r ns := by
        unfold disposeProvider
        rw [h2]
      rw [h1, h3]
    · have h1 : disposeProvider r ns id = jsMapSet r ns (jsMapDelete m id) := by
        unfold disposeProvider
        rw [hget]
        simp [hlen]
      have h2 : jsMapGet (jsMapSet r ns (jsMapDelete m id)) ns = some (jsMapDelete m id) :=
        jsMapGet_set_self r ns (jsMapDelete m id)
      have hfilt : jsMapDelete (jsMapDelete m id) id = jsMapDelete m id := by
        apply jsMapDelete_of_fresh
        intro p hp
        have := List.of_mem_filter hp
        simpa using this
      have h3 : disposeProvider (jsMapSet r ns (jsMapDelete m id)) ns id
          = jsMapSet (jsMapSet r ns (jsMapDelete m id)) ns (jsMapDelete m id) := by
        unfold disposeProvider
        rw [h2]
        simp [hfilt, hlen]
      rw [h1, h3, jsMapSet_set]

theorem registerWF (r : Registry) (ns id : String) (p : ITerminalCompletionProvider)
    (tc : List String) (h : RegistryWF r) :
    RegistryWF (registerTerminalCompletionProvider r ns id p tc) := by
  unfold registerTerminalCompletionProvider
  constructor
  · exact mapKeys_nodup_set h.1
  · intro e he
    rcases jsMapSet_mem_cases he with h1 | h1
    · rw [h1]
      apply mapKeys_nodup_set
      cases hget : jsMapGet r ns with
      | none => simp [hget, mapKeys]
      | some m =>
        simp only [hget, Option.getD_some]
        exact h.2 (ns, m) (jsMapGet_eq_some_mem hget)
    · exact h.2 e h1

theorem mem_enumeratePairs_fst {r : Registry} {a b : String}
    (h : (a, b) ∈ enumeratePairs r) : a ∈ mapKeys r := by
  unfold enumeratePairs at h
  obtain ⟨l, hl, hab⟩ := List.mem_flatten.mp h
  obtain ⟨e, he, hle⟩ := List.mem_map.mp hl
  rw [← hle] at hab
  obtain ⟨q, hq, hqe⟩ := List.mem_map.mp hab
  have ha : a = e.1 := by
    have := congrArg Prod.fst hqe
    simpa using this.symm
  rw [ha]
  exact List.mem_map.mpr ⟨e, he, rfl⟩

theorem enumeratePairs_nodup {r : Registry} (h : RegistryWF r) :
    (enumeratePairs r).Nodup := by
  induction r with
  | nil => simp [enumeratePairs]
  | cons e t ih =>
    have hkeys : (e.1 :: mapKeys t).Nodup := h.1
    have hkeysc := List.nodup_cons.mp hkeys
    have hwft : RegistryWF t := ⟨hkeysc.2, fun x hx => h.2 x (List.mem_cons_of_mem e hx)⟩
    have hblock : (e.2.map (fun q => (e.1, q.1))).Nodup := by
      have hinner : (mapKeys e.2).Nodup := h.2 e (List.mem_cons_self e t)
      have heq : e.2.map (fun q => (e.1, q.1)) = (mapKeys e.2).map (fun x => (e.1, x)) := by
        unfold mapKeys
        rw [List.map_map]
        rfl
      rw [heq]
      exact List.Nodup.map (fun x y hxy => by simpa using congrArg Prod.snd hxy) hinner
    have hrest := ih hwft
    unfold enumeratePairs
    rw [List.map_cons, List.flatten_cons, List.nodup_append]
    refine ⟨hblock, hrest, ?_⟩
    intro x hx hx2
    obtain ⟨q, hq, hqe⟩ := List.mem_map.mp hx
    cases x with
    | mk a b =>
      have hx1 : a = e.1 := by
        have := congrArg Prod.fst hqe
        simpa using this.symm
      rw [hx1] at hx2
      exact hkeysc.1 (mem_enumeratePairs_fst hx2)

theorem mem_enumeratePairs_of_get {r : Registry} {ns id : String}
    {m : List (String × ITerminalCompletionProvider)} {p : ITerminalCompletionProvider}
    (hm : jsMapGet r ns = some m) (hp : jsMapGet m id = some p) :
    (ns, id) ∈ enumeratePairs r := by
  have h1 : (ns, m) ∈ r := jsMapGet_eq_some_mem hm
  have h2 : (id, p) ∈ m := jsMapGet_eq_some_mem hp
  unfold enumeratePairs
  apply List.mem_flatten.mpr
  refine ⟨m.map (fun q => (ns, q.1)), ?_, ?_⟩
  · exact List.mem_map.mpr ⟨(ns, m), h1, rfl⟩
  · exact List.mem_map.mpr ⟨(id, p), h2, rfl⟩

theorem jsMapGet2_register (r : Registry) (ns id : String) (p : ITerminalCompletionProvider)
    (tc : List String) :
    jsMapGet2 (registerTerminalCompletionProvider r ns id p tc) ns id
      = some (stampProvider p id tc) := by
  unfold jsMapGet2 registerTerminalCompletionProvider
  rw [jsMapGet_set_self]
  simp only [Option.getD_some]
  exact jsMapGet_set_self _ _ _

theorem jsMapGet2_dispose (r : Registry) (ns id : String) :
    jsMapGet2 (disposeProvider r ns id) ns id = none := by
  unfold disposeProvider
  cases hget : jsMapGet r ns with
  | none =>
    unfold jsMapGet2
    rw [hget]
    rfl
  | some m =>
    dsimp only
    by_cases hlen : (jsMapDelete m id).length = 0
    · rw [if_pos hlen]
      unfold jsMapGet2
      rw [jsMapGet_delete_self]
      rfl
    · rw [if_neg hlen]
      unfold jsMapGet2
      rw [jsMapGet_set_self]
      simp only [Option.getD_some]
      exact jsMapGet_delete_self m id

theorem mem_enumeratePairs_of_get2 {r : Registry} {ns id : String}
    {p : ITerminalCompletionProvider} (h : jsMapGet2 r ns id = some p) :
    (ns, id) ∈ enumeratePairs r := by
  unfold jsMapGet2 at h
  cases hget : jsMapGet r ns with
  | none =>
    rw [hget] at h
    simp [jsMapGet] at h
  | some m =>
    rw [hget] at h
    simp only [Option.getD_some] at h
    exact mem_enumeratePairs_of_get hget h

theorem jsMapDelete_append_single_self {K V : Type} [DecidableEq K] {m : List (K × V)} {k : K}
    {v : V} (h : ∀ p ∈ m, p.1 ≠ k) : jsMapDelete (m ++ [(k, v)]) k = m := by
  unfold jsMapDelete
  rw [List.filter_append]
  have h1 : List.filter (fun p => !(decide (p.1 = k))) m = m := by
    rw [List.filter_eq_self]
    intro a ha
    simpa using h a ha
  rw [h1]
  simp

theorem countP_eq_one_of_mem_nodup {A : Type} [DecidableEq A] {l : List A} {a : A}
    (hnd : l.Nodup) (h : a ∈ l) : l.countP (fun x => decide (x = a)) = 1 := by
  induction l with
  | nil => simp at h
  | cons b t ih =>
    rw [List.countP_cons]
    rcases List.mem_cons.mp h with rfl | hmem
    · have hnotin := (List.nodup_cons.mp hnd).1
      have hz : t.countP (fun x => decide (x = a)) = 0 := by
        apply List.countP_eq_zero.mpr
        intro x hx
        simp only [decide_eq_true_eq]
        intro hxa
        exact hnotin (hxa ▸ hx)
      simp [hz]
    · have hnd2 := (List.nodup_cons.mp hnd).2
      have hba : ¬(b = a) := fun hh => (List.nodup_cons.mp hnd).1 (hh ▸ hmem)
      rw [ih hnd2 hmem]
      simp [hba]

/-- Claim C10: a disposal handle removes whatever provider currently sits
under its (namespaceId, providerId) key, not the instance it was created
for: after provider A is registered under a key and provider B replaces it
under the same key, invoking the disposal handle created for A removes the
entry of B from the registry. -/
theorem disposeHandle_removes_current_occupant (r : Registry) (ns id : String)
    (A B : ITerminalCompletionProvider) (tcA tcB : List String) :
    jsMapGet2 (registerTerminalCompletionProvider
        (registerTerminalCompletionProvider r ns id A tcA) ns id B tcB) ns id
      = some (stampProvider B id tcB) ∧
    jsMapGet2 (disposeProvider
        (registerTerminalCompletionProvider
          (registerTerminalCompletionProvider r ns id A tcA) ns id B tcB) ns id) ns id
      = none :=
  ⟨jsMapGet2_register _ ns id B tcB, jsMapGet2_dispose _ ns id⟩

/-- Claim C4: registering a second provider under an already used composite
key silently replaces the first: exactly one entry for that pair remains,
the stored provider is the second one, and enumeration never yields two
providers with the same composite key. -/
theorem register_replaces_silently (r : Registry) (ns id : String)
    (p1 p2 : ITerminalCompletionProvider) (tc1 tc2 : List String) (h : RegistryWF r) :
    (enumeratePairs (registerTerminalCompletionProvider
        (registerTerminalCompletionProvider r ns id p1 tc1) ns id p2 tc2)).countP
      (fun x => decide (x = (ns, id))) = 1 ∧
    jsMapGet2 (registerTerminalCompletionProvider
        (registerTerminalCompletionProvider r ns id p1 tc1) ns id p2 tc2) ns id
      = some (stampProvider p2 id tc2) ∧
    (enumeratePairs (registerTerminalCompletionProvider
        (registerTerminalCompletionProvider r ns id p1 tc1) ns id p2 tc2)).Nodup := by
  have hwf2 : RegistryWF (registerTerminalCompletionProvider
      (registerTerminalCompletionProvider r ns id p1 tc1) ns id p2 tc2) :=
    registerWF _ ns id p2 tc2 (registerWF r ns id p1 tc1 h)
  have hget2 := jsMapGet2_register (registerTerminalCompletionProvider r ns id p1 tc1) ns id p2 tc2
  have hnd := enumeratePairs_nodup hwf2
  refine ⟨?_, hget2, hnd⟩
  exact countP_eq_one_of_mem_nodup hnd (mem_enumeratePairs_of_get2 hget2)

/-- Claim C5: disposing a freshly registered provider removes its entry
(counts go N, N+1, N), a removal that empties the namespace sub-map removes
the namespace entry itself (the lookup of the namespace never yields an
empty sub-map), and a second invocation of the same handle is an idempotent
no-op. -/
theorem register_dispose_lifecycle (r : Registry) (ns id : String)
    (p : ITerminalCompletionProvider) (tc : List String) (hwf : RegistryWF r)
    (hfresh : jsMapGet2 r ns id = none) :
    countProviders (registerTerminalCompletionProvider r ns id p tc) = countProviders r + 1 ∧
    countProviders (disposeProvider (registerTerminalCompletionProvider r ns id p tc) ns id)
      = countProviders r ∧
    (∀ m, jsMapGet (disposeProvider (registerTerminalCompletionProvider r ns id p tc) ns id) ns
        = some m → m ≠ []) ∧
    disposeProvider (disposeProvider (registerTerminalCompletionProvider r ns id p tc) ns id) ns id
      = disposeProvider (registerTerminalCompletionProvider r ns id p tc) ns id := by
  have hmain : countProviders (registerTerminalCompletionProvider r ns id p tc)
        = countProviders r + 1 ∧
      countProviders (disposeProvider (registerTerminalCompletionProvider r ns id p tc) ns id)
        = countProviders r ∧
      (∀ m, jsMapGet (disposeProvider (registerTerminalCompletionProvider r ns id p tc) ns id) ns
        = some m → m ≠ []) := by
    cases hns : jsMapGet r ns with
    | none =>
      have hfreshNs : ∀ e ∈ r, e.1 ≠ ns := jsMapGet_eq_none_iff.mp hns
      have hr1 : registerTerminalCompletionProvider r ns id p tc
          = r ++ [(ns, [(id, stampProvider p id tc)])] := by
        unfold registerTerminalCompletionProvider
        rw [hns]
        simp only [Option.getD_none]
        rw [jsMapSet_of_fresh hfreshNs]
        rfl
      have hget1 : jsMapGet (r ++ [(ns, [(id, stampProvider p id tc)])]) ns
          = some [(id, stampProvider p id tc)] := jsMapGet_append_single hfreshNs
      have hdel1 : jsMapDelete [(id, stampProvider p id tc)] id
          = ([] : List (String × ITerminalCompletionProvider)) := by
        simp [jsMapDelete]
      have h0 : ([] : List (String × ITerminalCompletionProvider)).length = 0 := rfl
      have hdisp : disposeProvider (registerTerminalCompletionProvider r ns id p tc) ns id
          = r := by
        rw [hr1]
        unfold disposeProvider
        simp only [hget1]
        rw [hdel1, if_pos h0]
        exact jsMapDelete_append_single_self hfreshNs
      refine ⟨?_, ?_, ?_⟩
      · rw [hr1, countProviders_append]
        rfl
      · rw [hdisp]
      · rw [hdisp]
        intro m hm
        rw [hns] at hm
        simp at hm
    | some m0 =>
      have hfreshI : ∀ q ∈ m0, q.1 ≠ id := by
        apply jsMapGet_eq_none_iff.mp
        unfold jsMapGet2 at hfresh
        rw [hns] at hfresh
        simpa using hfresh
      have hr1 : registerTerminalCompletionProvider r ns id p tc
          = jsMapSet r ns (m0 ++ [(id, stampProvider p id tc)]) := by
        unfold registerTerminalCompletionProvider
        rw [hns]
        simp only [Option.getD_some]
        rw [jsMapSet_of_fresh hfreshI]
      have hcount1 : countProviders (registerTerminalCompletionProvider r ns id p tc)
          = countProviders r + 1 := by
        rw [hr1]
        have hs := countProviders_set_present r ns m0 (m0 ++ [(id, stampProvider p id tc)]) hwf.1 hns
        rw [List.length_append] at hs
        simp only [List.length_singleton] at hs
        omega
      have hget1 : jsMapGet (registerTerminalCompletionProvider r ns id p tc) ns
          = some (m0 ++ [(id, stampProvider p id tc)]) := by
        rw [hr1]
        exact jsMapGet_set_self r ns _
      have hdel1 : jsMapDelete (m0 ++ [(id, stampProvider p id tc)]) id = m0 :=
        jsMapDelete_append_single_self hfreshI
      have hnd1 : (mapKeys (registerTerminalCompletionProvider r ns id p tc)).Nodup := by
        rw [hr1]
        exact mapKeys_nodup_set hwf.1
      by_cases hm0 : m0 = []
      · have hdisp : disposeProvider (registerTerminalCompletionProvider r ns id p tc) ns id
            = jsMapDelete (registerTerminalCompletionProvider r ns id p tc) ns := by
          unfold disposeProvider
          simp only [hget1]
          rw [hdel1, if_pos (by rw [hm0]; rfl)]
        have hcount2 : countProviders (disposeProvider
            (registerTerminalCompletionProvider r ns id p tc) ns id) = countProviders r := by
          rw [hdisp]
          have hs := countProviders_delete_present (registerTerminalCompletionProvider r ns id p tc)
            ns (m0 ++ [(id, stampProvider p id tc)]) hnd1 hget1
          rw [List.length_append] at hs
          simp only [List.length_singleton] at hs
          have hm0l : m0.length = 0 := by rw [hm0]; rfl
          omega
        refine ⟨hcount1, hcount2, ?_⟩
        rw [hdisp]
        intro m hm
        rw [jsMapGet_delete_self] at hm
        simp at hm
      · have hm0len : ¬((jsMapDelete (m0 ++ [(id, stampProvider p id tc)]) id).length = 0) := by
          rw [hdel1]
          simpa using hm0
        have hdisp : disposeProvider (registerTerminalCompletionProvider r ns id p tc) ns id
            = jsMapSet (registerTerminalCompletionProvider r ns id p tc) ns m0 := by
          unfold disposeProvider
          simp only [hget1]
          rw [if_neg hm0len, hdel1]
        have hcount2 : countProviders (disposeProvider
            (registerTerminalCompletionProvider r ns id p tc) ns id) = countProviders r := by
          rw [hdisp]
          have hs := countProviders_set_present (registerTerminalCompletionProvider r ns id p tc)
            ns (m0 ++ [(id, stampProvider p id tc)]) m0 hnd1 hget1
          rw [List.length_append] at hs
          simp only [List.length_singleton] at hs
          omega
        refine ⟨hcount1, hcount2, ?_⟩
        rw [hdisp]
        intro m hm
        rw [jsMapGet_set_self] at hm
        intro hmn
        rw [hmn] at hm
        exact hm0 (Option.some.inj hm)
  exact ⟨hmain.1, hmain.2.1, hmain.2.2, disposeProvider_idem _ ns id⟩

/-- Claim C6: with the trigger-character flag set and extension completions
enabled, the candidate set is exactly the registered providers having at
least one trigger character that the prompt substring ending at the cursor
ends with, and a provider with no trigger characters is never selected. -/
theorem trigger_selection_exact (env : Env) (r : Registry) (promptValue : String)
    (cursorPosition : Nat) (p : ITerminalCompletionProvider)
    (henabled : env.enableExtensionCompletions = true) :
    (p ∈ candidateProviders env r promptValue cursorPosition true ↔
      p ∈ enumerateProviders r ∧ ∃ tcs, p.triggerCharacters = some tcs ∧
        ∃ c ∈ tcs, jsEndsWith (jsSubstringTo promptValue cursorPosition) c = true) ∧
    ((p.triggerCharacters = none ∨ p.triggerCharacters = some []) →
      p ∉ candidateProviders env r promptValue cursorPosition true) := by
  have hc : candidateProviders env r promptValue cursorPosition true
      = selectTriggerProviders (enumerateProviders r) promptValue cursorPosition := by
    unfold candidateProviders
    simp [henabled]
  constructor
  · rw [hc]
    unfold selectTriggerProviders
    rw [List.mem_filter]
    constructor
    · rintro ⟨hmem, hmatch⟩
      refine ⟨hmem, ?_⟩
      unfold triggerMatches at hmatch
      cases htc : p.triggerCharacters with
      | none => rw [htc] at hmatch; simp at hmatch
      | some tcs =>
        rw [htc] at hmatch
        obtain ⟨c, hc1, hc2⟩ := List.any_eq_true.mp hmatch
        exact ⟨tcs, rfl, c, hc1, hc2⟩
    · rintro ⟨hmem, tcs, htc, c, hcm, hce⟩
      refine ⟨hmem, ?_⟩
      unfold triggerMatches
      rw [htc]
      exact List.any_eq_true.mpr ⟨c, hcm, hce⟩
  · intro hnone hmem
    rw [hc] at hmem
    unfold selectTriggerProviders at hmem
    have hmatch := (List.mem_filter.mp hmem).2
    unfold triggerMatches at hmatch
    rcases hnone with h1 | h1 <;> rw [h1] at hmatch <;> simp at hmatch

/-- Witness for claim C6: the provider with triggers - and / is selected for
prompt ab- at cursor 3, excluded for prompt ab at cursor 2, and the provider
with no trigger characters is excluded. -/
theorem trigger_selection_exact_witness :
    stampProvider pArrA "dash" ["-", "/"] ∈ candidateProviders envPlain regTrig "ab-" 3 true ∧
    stampProvider pArrA "dash" ["-", "/"] ∉ candidateProviders envPlain regTrig "ab" 2 true ∧
    stampProvider pArrB "plain" [] ∉ candidateProviders envPlain regTrig "ab-" 3 true := by
  have henum : enumerateProviders regTrig
      = [stampProvider pArrA "dash" ["-", "/"], stampProvider pArrB "plain" []] := rfl
  refine ⟨?_, ?_, ?_⟩
  · apply (trigger_selection_exact envPlain regTrig "ab-" 3 _ rfl).1.mpr
    refine ⟨?_, ["-", "/"], rfl, "-", by simp, by decide⟩
    rw [henum]
    exact List.mem_cons_self _ _
  · intro hmem
    obtain ⟨hmemE, tcs, htc, c, hcm, hce⟩ :=
      (trigger_selection_exact envPlain regTrig "ab" 2 _ rfl).1.mp hmem
    have htc0 : (stampProvider pArrA "dash" ["-", "/"]).triggerCharacters
        = some ["-", "/"] := rfl
    rw [htc0] at htc
    have htcs : tcs = ["-", "/"] := (Option.some.inj htc).symm
    rw [htcs] at hcm
    rcases List.mem_cons.mp hcm with rfl | hcm2
    · exact absurd hce (by decide)
    · rcases List.mem_cons.mp hcm2 with rfl | hcm3
      · exact absurd hce (by decide)
      · simp at hcm3
  · exact (trigger_selection_exact envPlain regTrig "ab-" 3 _ rfl).2 (Or.inr rfl)

theorem containsSub_of_append_prefix (needle : List Char) :
    ∀ (pre s : List Char), needle.isPrefixOf s = true → containsSub needle (pre ++ s) = true := by
  intro pre
  induction pre with
  | nil =>
    intro s hs
    rw [List.nil_append]
    cases s with
    | nil =>
      have hn : needle = [] := by simpa using hs
      simp [containsSub, hn]
    | cons c rest =>
      simp [containsSub, hs]
  | cons c pre ih =>
    intro s hs
    rw [List.cons_append]
    simp [containsSub, ih s hs]

theorem jsIncludes_annotated (id d : String) :
    jsIncludes ("(" ++ id ++ ") " ++ d) id = true := by
  unfold jsIncludes
  rw [String.data_append, String.data_append, String.data_append]
  have hassoc : ((("(".data ++ id.data) ++ (") ").data) ++ d.data)
      = "(".data ++ (id.data ++ ((") ").data ++ d.data)) := by
    simp [List.append_assoc]
  rw [hassoc]
  apply containsSub_of_append_prefix
  rw [List.isPrefixOf_iff_prefix]
  exact List.prefix_append _ _

/-- Claim C7: with dev mode on, an item whose detail does not already
contain the provider id gets its detail prefixed in place with the
parenthesized provider id, and the prefixing happens at most once (a second
application of the annotation step is a no-op); an item whose detail already
contains the id, or any item with dev mode off, is unchanged. -/
theorem annotate_detail_spec (id : String) (c : ITerminalCompletion) :
    (detailIncludes c.detail id = false →
      annotateCompletion true id c
        = { c with detail := some ("(" ++ id ++ ") " ++ c.detail.getD "") }) ∧
    (detailIncludes c.detail id = true → annotateCompletion true id c = c) ∧
    annotateCompletion false id c = c ∧
    annotateCompletion true id (annotateCompletion true id c)
      = annotateCompletion true id c := by
  refine ⟨?_, ?_, ?_, ?_⟩
  · intro h
    unfold annotateCompletion
    rw [h]
    simp
  · intro h
    unfold annotateCompletion
    rw [h]
    simp
  · unfold annotateCompletion
    simp
  · by_cases h : detailIncludes c.detail id = true
    · have hc1 : annotateCompletion true id c = c := by
        unfold annotateCompletion
        rw [h]
        simp
      simp only [hc1]
    · have hf : detailIncludes c.detail id = false := by
        cases hb : detailIncludes c.detail id
        · rfl
        · exact absurd hb h
      have h1 : annotateCompletion true id c
          = { c with detail := some ("(" ++ id ++ ") " ++ c.detail.getD "") } := by
        unfold annotateCompletion
        rw [hf]
        simp
      rw [h1]
      have h2 : detailIncludes (some ("(" ++ id ++ ") " ++ c.detail.getD "")) id = true := by
        unfold detailIncludes
        exact jsIncludes_annotated id _
      unfold annotateCompletion
      simp [h2]

/-- Witness for claim C7: with dev mode on, the item with empty detail from
provider git gets detail (git) followed by a space; with dev mode off it is
unchanged. -/
theorem annotate_detail_spec_witness :
    annotateCompletion true "git" itemEmptyDetail
      = { itemEmptyDetail with detail := some "(git) " } ∧
    annotateCompletion false "git" itemEmptyDetail = itemEmptyDetail := by
  have h := annotate_detail_spec "git" itemEmptyDetail
  refine ⟨?_, h.2.2.1⟩
  have h1 := h.1 (by decide)
  rw [h1]
  rfl

/-- Claim C2 (code defect): a provider resolving a structured completion
list without a resource request contributes nothing: the fall-through of
_collectCompletions returns undefined, discarding the computed annotated
items instead of returning them as the claim and the spec require. -/
theorem structured_list_without_resource_dropped :
    collectOne envPlain "bash" "" 0 pListNoResource = Except.ok none ∧
    (Except.ok none : Except Unit (Option (List ITerminalCompletion)))
      ≠ Except.ok (some [itemX]) := by
  refine ⟨rfl, by simp⟩

/-- Counterexample to claim C1: with three registered providers of which the
second rejects, provideCompletions does not return the first and third
providers items concatenated; _collectCompletions has no exception handling,
so the rejection propagates through Promise.all and the whole call rejects. -/
theorem provider_throw_not_isolated :
    provideCompletions envPlain regThree "" 0 "bash" false = Except.error () ∧
    provideCompletions envPlain regThree "" 0 "bash" false ≠ Except.ok [itemA, itemB] := by
  refine ⟨rfl, ?_⟩
  intro h
  rw [show provideCompletions envPlain regThree "" 0 "bash" false = Except.error () from rfl] at h
  exact Except.noConfusion h

theorem collectResults_error (env : Env) (shellType promptValue : String)
    (cursorPosition : Nat) :
    ∀ (ps : List ITerminalCompletionProvider), (∃ p ∈ ps,
      collectOne env shellType promptValue cursorPosition p = Except.error ()) →
    collectResults env shellType promptValue cursorPosition ps = Except.error () := by
  intro ps
  induction ps with
  | nil =>
    intro h
    simp at h
  | cons q t ih =>
    intro h
    unfold collectResults
    obtain ⟨p, hp, herr⟩ := h
    rcases List.mem_cons.mp hp with rfl | hmem
    · rw [herr]
    · cases hq : collectOne env shellType promptValue cursorPosition q with
      | error e => cases e; rfl
      | ok v => rw [ih ⟨p, hmem, herr⟩]

/-- Claim C1 as amended: the aggregation engine does not isolate provider
failures; when any candidate provider throws or rejects, the rejection
propagates and the whole provideCompletions call rejects instead of
returning the remaining providers results. -/
theorem provider_failure_propagates (env : Env) (r : Registry) (promptValue : String)
    (cursorPosition : Nat) (shellType : String) (triggerCharacter : Bool)
    (h : ∃ p ∈ candidateProviders env r promptValue cursorPosition triggerCharacter,
      collectOne env shellType promptValue cursorPosition p = Except.error ()) :
    provideCompletions env r promptValue cursorPosition shellType triggerCharacter
      = Except.error () := by
  have hres := collectResults_error env shellType promptValue cursorPosition _ h
  unfold provideCompletions collectCompletions
  rw [hres]

/-- Witness for the amended claim C1, at the concrete registry whose second
provider rejects. -/
theorem provider_failure_propagates_witness :
    provideCompletions envPlain regThree "" 0 "bash" false = Except.error () :=
  provider_failure_propagates envPlain regThree "" 0 "bash" false
    ⟨stampProvider pThrow "p2" [], by
      have hce : candidateProviders envPlain regThree "" 0 false
          = [stampProvider pArrA "p1" [], stampProvider pThrow "p2" [],
             stampProvider pArrB "p3" []] := rfl
      rw [hce]
      exact List.mem_cons_of_mem _ (List.mem_cons_self _ _), rfl⟩

theorem listDirItems_fails (env : Env) (fr fo : Bool) (cwd : URI) (lw cp : Nat)
    (dir : URI) (pfx : String) (h : listingFails env dir) :
    listDirItems env fr fo cwd lw cp dir pfx = none := by
  unfold listDirItems
  rcases h with h1 | ⟨st, h1, h2⟩
  · rw [h1]
  · simp only [h1]
    rw [h2]

theorem resolveLoop_two_fails (env : Env) (fr fo : Bool) (cwd : URI) (lw cp : Nat)
    (d1 d2 : URI) (x1 x2 : String) (acc : List ITerminalCompletion)
    (h : listingFails env d1 ∨ listingFails env d2) :
    resolveLoop env fr fo cwd lw cp [(d1, x1), (d2, x2)] acc = none := by
  simp only [resolveLoop]
  rcases h with h1 | h1
  · rw [listDirItems_fails env fr fo cwd lw cp d1 x1 h1]
  · cases hd1 : listDirItems env fr fo cwd lw cp d1 x1 with
    | none => rfl
    | some items => rw [listDirItems_fails env fr fo cwd lw cp d2 x2 h1]

/-- Claim C8: when listing either of the two target directories fails, the
whole resolution returns undefined rather than a partial list, while the
enclosing provider still returns its own annotated items through the
aggregation engine. -/
theorem resolve_failure_strict (env : Env) (cfg : TerminalResourceRequestConfig)
    (promptValue : String) (cursorPosition : Nat) (cwd : URI)
    (hcwd : cfg.cwd = some cwd)
    (hreq : (cfg.foldersRequested.getD false || cfg.filesRequested.getD false) = true)
    (hfail : listingFails env cwd ∨ listingFails env (parentCwdOf cfg cwd)) :
    resolveResources env cfg promptValue cursorPosition = none ∧
    ∀ (p : ITerminalCompletionProvider) (items : List ITerminalCompletion)
      (shellType : String),
      p.shellTypes = none →
      p.provideCompletions promptValue cursorPosition
        = Except.ok (some (ProviderReturn.list
            { resourceRequestConfig := some cfg, items := some items })) →
      collectOne env shellType promptValue cursorPosition p
        = Except.ok (some (items.map (annotateCompletion env.devMode p.id))) := by
  have hcond : (!(cfg.foldersRequested.getD false) && !(cfg.filesRequested.getD false))
      = false := by
    rw [← Bool.not_or, hreq]
    rfl
  have hres : resolveResources env cfg promptValue cursorPosition = none := by
    unfold resolveResources
    simp only [hcwd]
    rw [hcond, if_neg Bool.false_ne_true]
    rw [resolveLoop_two_fails env (cfg.filesRequested.getD false)
      (cfg.foldersRequested.getD false) cwd (lastWordOf promptValue cursorPosition).length
      cursorPosition cwd (parentCwdOf cfg cwd) "." ".." [] hfail]
  refine ⟨hres, ?_⟩
  intro p items shellType hshell hprov
  unfold collectOne
  simp only [hshell, hprov, hres]
  simp

/-- Witness for claim C8: with a file service that resolves nothing, the
resolution returns none while the provider carrying the resource request
still contributes its own item. -/
theorem resolve_failure_strict_witness :
    resolveResources envPlain cfgDir "" 0 = none ∧
    collectOne envPlain "bash" "" 0 pWithResource
      = Except.ok (some ([itemX].map (annotateCompletion envPlain.devMode pWithResource.id))) := by
  have h := resolve_failure_strict envPlain cfgDir "" 0
    { scheme := "test", path := "a/b" } rfl rfl (Or.inl (Or.inl rfl))
  exact ⟨h.1, h.2 pWithResource [itemX] "bash" rfl rfl⟩

/-- Counterexample to claim C3: in the root case the computed parent URI has
the same path as the working directory, yet the two map entries are not
collapsed, because the JavaScript Map is keyed by two distinct URI objects;
the children of that single directory are listed and contributed twice, once
under each label, instead of only once. -/
theorem resolve_root_not_deduplicated :
    parentCwdOf cfgRoot cwdRoot = cwdRoot ∧
    resolveResources envRoot cfgRoot "" 0
      = some [{ label := ".sub", detail := none,
                kind := some TerminalCompletionItemKind.Folder,
                isDirectory := some true, isFile := some false,
                replacementIndex := 0, replacementLength := 4 },
              { label := "..sub", detail := none,
                kind := some TerminalCompletionItemKind.Folder,
                isDirectory := some true, isFile := some false,
                replacementIndex := 0, replacementLength := 5 }] :=
  ⟨rfl, rfl⟩

/-- Claim C3 as amended: the two target directories are never deduplicated:
the map is keyed by URI object identity and the parent URI is always a fresh
object, so in the root case where the computed parent equals the working
directory the directory is listed twice and its children are contributed
twice, once under the dot label and once under the dot-dot label. -/
theorem resolve_root_lists_twice (env : Env) (cfg : TerminalResourceRequestConfig)
    (promptValue : String) (cursorPosition : Nat) (cwd : URI)
    (cs : List FileStatChild)
    (hcwd : cfg.cwd = some cwd)
    (hroot : parentCwdOf cfg cwd = cwd)
    (hreq : (cfg.foldersRequested.getD false || cfg.filesRequested.getD false) = true)
    (hstat : env.fileService cwd = some { children := some cs }) :
    resolveResources env cfg promptValue cursorPosition =
      (if (dirItems (cfg.filesRequested.getD false) (cfg.foldersRequested.getD false) cwd
              (lastWordOf promptValue cursorPosition).length cursorPosition "." cs
            ++ dirItems (cfg.filesRequested.getD false) (cfg.foldersRequested.getD false) cwd
              (lastWordOf promptValue cursorPosition).length cursorPosition ".." cs).length = 0
        then none
        else some (dirItems (cfg.filesRequested.getD false) (cfg.foldersRequested.getD false) cwd
              (lastWordOf promptValue cursorPosition).length cursorPosition "." cs
            ++ dirItems (cfg.filesRequested.getD false) (cfg.foldersRequested.getD false) cwd
              (lastWordOf promptValue cursorPosition).length cursorPosition ".." cs)) := by
  have hcond : (!(cfg.foldersRequested.getD false) && !(cfg.filesRequested.getD false))
      = false := by
    rw [← Bool.not_or, hreq]
    rfl
  have hld : ∀ pfx, listDirItems env (cfg.filesRequested.getD false)
      (cfg.foldersRequested.getD false) cwd (lastWordOf promptValue cursorPosition).length
      cursorPosition cwd pfx
      = some (dirItems (cfg.filesRequested.getD false) (cfg.foldersRequested.getD false) cwd
          (lastWordOf promptValue cursorPosition).length cursorPosition pfx cs) := by
    intro pfx
    unfold listDirItems
    rw [hstat]
  unfold resolveResources
  simp only [hcwd]
  rw [hcond, if_neg Bool.false_ne_true, hroot]
  simp only [resolveLoop]
  rw [hld ".", hld ".."]
  simp

/-- Witness for the amended claim C3 at the concrete root-case directory. -/
theorem resolve_root_lists_twice_witness :
    resolveResources envRoot cfgRoot "" 0 =
      (if (dirItems (cfgRoot.filesRequested.getD false) (cfgRoot.foldersRequested.getD false)
              cwdRoot (lastWordOf "" 0).length 0 "." [childSub]
            ++ dirItems (cfgRoot.filesRequested.getD false) (cfgRoot.foldersRequested.getD false)
              cwdRoot (lastWordOf "" 0).length 0 ".." [childSub]).length = 0
        then none
        else some (dirItems (cfgRoot.filesRequested.getD false)
              (cfgRoot.foldersRequested.getD false) cwdRoot (lastWordOf "" 0).length 0 "."
              [childSub]
            ++ dirItems (cfgRoot.filesRequested.getD false)
              (cfgRoot.foldersRequested.getD false) cwdRoot (lastWordOf "" 0).length 0 ".."
              [childSub])) :=
  resolve_root_lists_twice envRoot cfgRoot "" 0 cwdRoot [childSub] rfl rfl rfl rfl

theorem collectResults_ok_map (env : Env) (shellType promptValue : String)
    (cursorPosition : Nat) :
    ∀ (ps : List ITerminalCompletionProvider)
      (results : List (Option (List ITerminalCompletion))),
      collectResults env shellType promptValue cursorPosition ps = Except.ok results →
      results = ps.map
        (fun p => exceptValue (collectOne env shellType promptValue cursorPosition p)) := by
  intro ps
  induction ps with
  | nil =>
    intro results h
    unfold collectResults at h
    simpa using (Except.ok.inj h).symm
  | cons q t ih =>
    intro results h
    unfold collectResults at h
    cases hq : collectOne env shellType promptValue cursorPosition q with
    | error e =>
      rw [hq] at h
      exact Except.noConfusion h
    | ok r =>
      rw [hq] at h
      cases ht : collectResults env shellType promptValue cursorPosition t with
      | error e =>
        rw [ht] at h
        exact Except.noConfusion h
      | ok rs =>
        rw [ht] at h
        have hres : results = r :: rs := (Except.ok.inj h).symm
        rw [hres, List.map_cons]
        congr 1
        · rw [hq]
          rfl
        · exact ih rs ht

/-- Claim C9: provideCompletions is a deterministic function of the captured
environment, registry state and arguments: two calls on equal inputs give
equal results, and the successful output is the positional merge of the
per-provider contributions in candidate iteration order, so each provider
slot is positional rather than completion-order dependent. -/
theorem provideCompletions_deterministic_positional (env : Env) (r : Registry)
    (promptValue : String) (cursorPosition : Nat) (shellType : String)
    (triggerCharacter : Bool) (items : List ITerminalCompletion)
    (h : provideCompletions env r promptValue cursorPosition shellType triggerCharacter
      = Except.ok items) :
    provideCompletions env r promptValue cursorPosition shellType triggerCharacter
      = provideCompletions env r promptValue cursorPosition shellType triggerCharacter ∧
    items = positionalMerge
      ((candidateProviders env r promptValue cursorPosition triggerCharacter).map
        (fun p => exceptValue (collectOne env shellType promptValue cursorPosition p))) := by
  refine ⟨rfl, ?_⟩
  unfold provideCompletions collectCompletions at h
  cases hres : collectResults env shellType promptValue cursorPosition
      (candidateProviders env r promptValue cursorPosition triggerCharacter) with
  | error e =>
    rw [hres] at h
    exact Except.noConfusion h
  | ok results =>
    rw [hres] at h
    have hr : (results.filterMap id).flatten = items := Except.ok.inj h
    rw [← hr]
    unfold positionalMerge
    rw [collectResults_ok_map env shellType promptValue cursorPosition _ results hres]

/-- Witness for claim C9 at a registry with two succeeding providers. -/
theorem provideCompletions_deterministic_positional_witness :
    provideCompletions envPlain regTwo "" 0 "bash" false
      = provideCompletions envPlain regTwo "" 0 "bash" false ∧
    [itemA, itemB] = positionalMerge
      ((candidateProviders envPlain regTwo "" 0 false).map
        (fun p => exceptValue (collectOne envPlain "bash" "" 0 p))) :=
  provideCompletions_deterministic_positional envPlain regTwo "" 0 "bash" false
    [itemA, itemB] rfl

/-- Witness for claim C4 at the empty registry. -/
theorem register_replaces_silently_witness :
    (enumeratePairs (registerTerminalCompletionProvider
        (registerTerminalCompletionProvider [] "ext" "x" pArrA []) "ext" "x" pArrB [])).countP
      (fun x => decide (x = ("ext", "x"))) = 1 ∧
    jsMapGet2 (registerTerminalCompletionProvider
        (registerTerminalCompletionProvider [] "ext" "x" pArrA []) "ext" "x" pArrB []) "ext" "x"
      = some (stampProvider pArrB "x" []) ∧
    (enumeratePairs (registerTerminalCompletionProvider
        (registerTerminalCompletionProvider [] "ext" "x" pArrA []) "ext" "x" pArrB [])).Nodup :=
  register_replaces_silently [] "ext" "x" pArrA pArrB [] [] ⟨List.nodup_nil, by simp⟩

/-- Witness for claim C5 at the empty registry: counts go 0, 1, 0. -/
theorem register_dispose_lifecycle_witness :
    countProviders (registerTerminalCompletionProvider [] "ext" "x" pArrA [])
      = countProviders ([] : Registry) + 1 ∧
    countProviders (disposeProvider
        (registerTerminalCompletionProvider [] "ext" "x" pArrA []) "ext" "x")
      = countProviders ([] : Registry) ∧
    (∀ m, jsMapGet (disposeProvider
        (registerTerminalCompletionProvider [] "ext" "x" pArrA []) "ext" "x") "ext"
      = some m → m ≠ []) ∧
    disposeProvider (disposeProvider
        (registerTerminalCompletionProvider [] "ext" "x" pArrA []) "ext" "x") "ext" "x"
      = disposeProvider (registerTerminalCompletionProvider [] "ext" "x" pArrA []) "ext" "x" :=
  register_dispose_lifecycle [] "ext" "x" pArrA [] ⟨List.nodup_nil, by simp⟩ rfl
